import Mathlib

/-!
Shallow embedding of `src/bus_sim.py`, a simpy-based public-transport
discrete-event simulation.

Virtual time is modelled by `ℚ` (the Python float literals used by the
configuration are exact decimals), the simpy event heap by a list of
`(time, seq, process)` events kept ordered by the lexicographic order on
`(time, seq)` — exactly simpy's `(time, eid)` heap key — and every random
draw (`np.random.exponential`, `random.gauss`, `random.choice`) by an
explicit input stream.

Each process (`Bus.run`, `passenger_generator`, `monitor`) is embedded as a
resume-point state machine: a `...Resume` function runs the Python code of
the process from one `yield env.timeout(...)` to the next.  `yield
store.get()` on a non-empty `simpy.Store` removes the item synchronously and
resumes at the same virtual instant, so it is folded into the enclosing
segment; the blocking branch of `get` (empty store) is recorded by the
`blocked` flag, which claim C10 proves unreachable.
-/

namespace BusSim

/-- Configuration constant of bus_sim.py line 20: `BUS_CAPACITY = 40`. -/
def BUS_CAPACITY : ℕ := 40

/-- Configuration constant of bus_sim.py line 21: `BOARDING_TIME = 3 / 60`. -/
def BOARDING_TIME : ℚ := 3 / 60

/-- Configuration constant of bus_sim.py line 22: `ALIGHTING_TIME = 2 / 60`. -/
def ALIGHTING_TIME : ℚ := 2 / 60

/-- Configuration constant of bus_sim.py line 23: `MIN_DWELL = 0.1`. -/
def MIN_DWELL : ℚ := 1 / 10

/-- Passenger record, bus_sim.py lines 48-55.  `board_time` and
`alight_time` start as `None`. -/
structure Passenger where
  id : String
  arrival_time : ℚ
  origin : String
  destination : String
  board_time : Option ℚ
  alight_time : Option ℚ
deriving Repr, DecidableEq

/-- Route configuration entry, bus_sim.py lines 26-29. -/
structure RouteInfo where
  stops : List String
  headway : ℚ
  num_buses : ℕ
  travel_mean : ℚ
  travel_sd : ℚ
deriving Repr, DecidableEq

/-- Resume points of `Bus.run` (bus_sim.py lines 85-140): one constructor
per `yield env.timeout(...)` continuation.
* `init` — process created, about to execute `yield env.timeout(start_time)`;
* `visiting` — resumed at the top of the stop-visit loop (line 88);
* `boardEntry a` — resumed after the alighting timeout of line 96, with
  `a = len(alighting)`; the free space of line 99 is computed here;
* `boarding free boarded alighted` — resumed after the per-passenger
  boarding timeout of line 118, with the loop locals of lines 99-117;
* `postDwell` — resumed after the minimum-dwell timeout of line 122;
* `traveling t` — resumed after a unit travel step (line 133), with `t`
  the remaining travel time after the subtraction of line 134. -/
inductive BusPC where
  | init
  | visiting
  | boardEntry (alighted : ℕ)
  | boarding (free boarded alighted : ℕ)
  | postDwell
  | traveling (t : ℚ)
deriving Repr, DecidableEq

/-- State of one `Bus` object (bus_sim.py lines 69-83) plus its process
resume point and its stream of `random.gauss` travel draws. -/
structure BusState where
  id : String
  route : List String
  capacity : ℕ
  onboard : List Passenger
  idx : ℕ
  active : ℚ
  occupied : ℚ
  trips : ℕ
  startDelay : ℚ
  pc : BusPC
  draws : ℕ → ℚ
  drawIdx : ℕ
  blocked : Bool

/-- State of one `passenger_generator` process (bus_sim.py lines 145-154)
with its exponential inter-arrival draw stream and its `random.choice`
index stream.  `started = false` until the first `yield` has been taken. -/
structure GenState where
  stop : String
  routeStops : List String
  pid : ℕ
  iaDraws : ℕ → ℚ
  iaIdx : ℕ
  destDraws : ℕ → ℕ
  destIdx : ℕ
  started : Bool

/-- Identity of a scheduled process. -/
inductive ProcId where
  | bus (i : ℕ)
  | gen (i : ℕ)
  | mon
deriving Repr, DecidableEq

/-- One scheduled resumption: simpy's `(time, eid, event)` heap entry.
The sequence number is assigned from a monotone counter at scheduling
time, giving deterministic FIFO tie-breaking at equal times. -/
structure Event where
  time : ℚ
  seq : ℕ
  target : ProcId
deriving Repr, DecidableEq

/-- The simpy heap order on events: lexicographic on `(time, seq)`. -/
def evLE (a b : Event) : Prop :=
  a.time < b.time ∨ (a.time = b.time ∧ a.seq ≤ b.seq)

instance : DecidableRel evLE := fun a b => by
  unfold evLE; infer_instance

instance : IsTrans Event evLE where
  trans a b c hab hbc := by
    rcases hab with h1 | ⟨h1, h1s⟩ <;> rcases hbc with h2 | ⟨h2, h2s⟩
    · exact Or.inl (lt_trans h1 h2)
    · exact Or.inl (h2 ▸ h1)
    · exact Or.inl (h1 ▸ h2)
    · exact Or.inr ⟨h1.trans h2, h1s.trans h2s⟩

instance : IsTotal Event evLE where
  total a b := by
    rcases lt_trichotomy a.time b.time with h | h | h
    · exact Or.inl (Or.inl h)
    · rcases Nat.le_total a.seq b.seq with hs | hs
      · exact Or.inl (Or.inr ⟨h, hs⟩)
      · exact Or.inr (Or.inr ⟨h.symm, hs⟩)
    · exact Or.inr (Or.inl h)

/-- Pointwise update of a name-indexed family of queues (a `Stop`'s
`simpy.Store` contents, keyed by the stop's name). -/
def updQ (f : String → List Passenger) (sn : String) (v : List Passenger) :
    String → List Passenger :=
  fun x => if x = sn then v else f x

/-- Result of running one bus segment (from one resume point to the next
`yield env.timeout`): updated bus, updated queues, requested delay, the
passenger taken from a stop queue (if any, logged as it was at `get` time),
and the passengers that alighted in this segment. -/
structure SegOut where
  bus : BusState
  queues : String → List Passenger
  delay : ℚ
  takeLog : Option (String × Passenger)
  alightLog : List Passenger

/-- Travel-time floor of bus_sim.py line 125:
`travel_time = max(0.5, random.gauss(mean, sd))`. -/
def travelTime (draw : ℚ) : ℚ := max (1 / 2) draw

/-- The blocking FIFO take of `Stop.get_passenger` / `simpy.Store.get`
(bus_sim.py lines 66-67): the head of the queue if non-empty; `none` is the
blocking branch (the caller would suspend until a `put`). -/
def getPassenger (q : List Passenger) : Option (Passenger × List Passenger) :=
  match q with
  | [] => none
  | p :: rest => some (p, rest)

/-- One iteration of the travel loop of bus_sim.py lines 127-134:
`step = min(1, t)`, accumulate active and occupied minutes, then
`yield env.timeout(step)`; the remaining time after the yield is `t - step`. -/
def busTravelIter (t : ℚ) (bs : BusState) (qs : String → List Passenger) : SegOut :=
  let step := min 1 t
  { bus := { bs with
      active := bs.active + step,
      occupied := bs.occupied + (bs.onboard.length : ℚ) * step,
      pc := BusPC.traveling (t - step) },
    queues := qs, delay := step, takeLog := none, alightLog := [] }

/-- Start of the TRAVEL phase, bus_sim.py line 125: draw the travel time
(floored at 0.5) and run the first travel-loop iteration, which always
executes since `travel_time ≥ 0.5 > 0`. -/
def busTravelStart (bs : BusState) (qs : String → List Passenger) : SegOut :=
  let tt := travelTime (bs.draws bs.drawIdx)
  busTravelIter tt { bs with drawIdx := bs.drawIdx + 1 } qs

/-- Minimum-dwell fallback of bus_sim.py lines 121-122: if nothing boarded
and nothing alighted this visit, suspend for `MIN_DWELL`; otherwise fall
through to TRAVEL. -/
def busAfterBoard (boarded alighted : ℕ) (bs : BusState)
    (qs : String → List Passenger) : SegOut :=
  if boarded = 0 ∧ alighted = 0 then
    { bus := { bs with pc := BusPC.postDwell },
      queues := qs, delay := MIN_DWELL, takeLog := none, alightLog := [] }
  else busTravelStart bs qs

/-- One check of the boarding loop of bus_sim.py lines 101-118:
`while free_space > 0 and len(stop.queue.items) > 0`, take the head of the
queue, stamp its `board_time` with the current virtual time, append it to
`onboard`, and suspend for `BOARDING_TIME`; on guard failure fall through
to the dwell check. -/
def busBoardLoop (now : ℚ) (free boarded alighted : ℕ) (bs : BusState)
    (qs : String → List Passenger) : SegOut :=
  let stopName := bs.route.getD bs.idx ""
  let q := qs stopName
  if free > 0 ∧ q ≠ [] then
    match getPassenger q with
    | none =>
        { bus := { bs with blocked := true },
          queues := qs, delay := 0, takeLog := none, alightLog := [] }
    | some (p, rest) =>
        let pb := { p with board_time := some now }
        { bus := { bs with
            onboard := bs.onboard ++ [pb],
            pc := BusPC.boarding (free - 1) (boarded + 1) alighted },
          queues := updQ qs stopName rest,
          delay := BOARDING_TIME,
          takeLog := some (stopName, p), alightLog := [] }
  else busAfterBoard boarded alighted bs qs

/-- Entry of the BOARD phase, bus_sim.py lines 99-100: compute
`free_space = capacity - len(onboard)` (after alighting) and reset the
`boarded` counter. -/
def busBoardEntry (now : ℚ) (alighted : ℕ) (bs : BusState)
    (qs : String → List Passenger) : SegOut :=
  busBoardLoop now (bs.capacity - bs.onboard.length) 0 alighted bs qs

/-- The ALIGHT phase at the top of the visit loop, bus_sim.py lines 88-96:
every onboard passenger destined for the current stop gets
`alight_time = now` and is removed; if any alighted, suspend for
`len(alighting) * ALIGHTING_TIME`, else continue directly into BOARD. -/
def busVisit (now : ℚ) (bs : BusState) (qs : String → List Passenger) : SegOut :=
  let stopName := bs.route.getD bs.idx ""
  let alighting := bs.onboard.filter (fun p => p.destination = stopName)
  let staying := bs.onboard.filter (fun p => ¬ p.destination = stopName)
  let aDone := alighting.map (fun p => { p with alight_time := some now })
  let bs2 := { bs with onboard := staying }
  if 0 < alighting.length then
    { bus := { bs2 with pc := BusPC.boardEntry alighting.length },
      queues := qs, delay := (alighting.length : ℚ) * ALIGHTING_TIME,
      takeLog := none, alightLog := aDone }
  else busBoardEntry now 0 bs2 qs

/-- End of a travel leg, bus_sim.py lines 137-140: advance the stop index
cyclically, count a completed trip on wrap-around, and continue into the
next visit (which always reaches a `yield`). -/
def busFinishTravel (now : ℚ) (bs : BusState) (qs : String → List Passenger) : SegOut :=
  let idx2 := (bs.idx + 1) % bs.route.length
  let bs2 := { bs with
    idx := idx2,
    trips := if idx2 = 0 then bs.trips + 1 else bs.trips }
  busVisit now bs2 qs

/-- Run `Bus.run` from its current resume point to its next suspension. -/
def busResume (now : ℚ) (bs : BusState) (qs : String → List Passenger) : SegOut :=
  match bs.pc with
  | BusPC.init =>
      { bus := { bs with pc := BusPC.visiting },
        queues := qs, delay := bs.startDelay, takeLog := none, alightLog := [] }
  | BusPC.visiting => busVisit now bs qs
  | BusPC.boardEntry a => busBoardEntry now a bs qs
  | BusPC.boarding f b a => busBoardLoop now f b a bs qs
  | BusPC.postDwell => busTravelStart bs qs
  | BusPC.traveling t =>
      if 0 < t then busTravelIter t bs qs
      else busFinishTravel now bs qs

/-- Destination selection of bus_sim.py lines 151-152:
`idx = route_stops.index(stop.name)`;
`dest = random.choice(route_stops[idx+1:]) if idx+1 < len(route_stops) else stop.name`.
The uniform choice is modelled by an arbitrary index `k`, reduced modulo
the number of strictly-downstream stops. -/
def chooseDest (rstops : List String) (sname : String) (k : ℕ) : String :=
  let idx := rstops.indexOf sname
  if idx + 1 < rstops.length then
    (rstops.drop (idx + 1)).getD (k % (rstops.length - (idx + 1))) ""
  else sname

/-- Result of one `passenger_generator` segment: updated generator state,
updated queues, requested delay, and the passenger put (if any). -/
structure GenOut where
  gen : GenState
  queues : String → List Passenger
  delay : ℚ
  putLog : Option (String × Passenger)

/-- Run `passenger_generator` (bus_sim.py lines 145-154) from its resume
point to its next suspension.  The first activation only draws an
inter-arrival time and suspends; every later resumption constructs a
passenger with `arrival_time = env.now`, appends it to the stop's queue,
then draws the next inter-arrival time and suspends. -/
def genResume (now : ℚ) (g : GenState) (qs : String → List Passenger) : GenOut :=
  if g.started then
    let pid2 := g.pid + 1
    let dest := chooseDest g.routeStops g.stop (g.destDraws g.destIdx)
    let p : Passenger :=
      { id := g.stop ++ "-" ++ toString pid2, arrival_time := now,
        origin := g.stop, destination := dest,
        board_time := none, alight_time := none }
    { gen := { g with pid := pid2, destIdx := g.destIdx + 1, iaIdx := g.iaIdx + 1 },
      queues := updQ qs g.stop (qs g.stop ++ [p]),
      delay := g.iaDraws g.iaIdx,
      putLog := some (g.stop, p) }
  else
    { gen := { g with started := true, iaIdx := g.iaIdx + 1 },
      queues := qs,
      delay := g.iaDraws g.iaIdx,
      putLog := none }

/-- Append to one stop's log (used for the take log and the put log). -/
def pushLog (f : String → List Passenger) (x : Option (String × Passenger)) :
    String → List Passenger :=
  match x with
  | none => f
  | some (sn, p) => updQ f sn (f sn ++ [p])

/-- Global simulation state: the virtual clock, the monotone event-sequence
counter, the pending events (sorted by `(time, seq)`), all process states,
the stop queues, and the observation logs (takes and puts per stop, alighted
passengers, and the monitor's `(stop, time, queue length)` samples). -/
structure SimState where
  now : ℚ
  nextSeq : ℕ
  events : List Event
  buses : List BusState
  gens : List GenState
  queues : String → List Passenger
  takes : String → List Passenger
  puts : String → List Passenger
  alightLog : List Passenger
  samples : List (String × ℚ × ℕ)
  stopsList : List String

/-- Dispatch of a bus resumption event: run the targeted bus's segment (if
the index is valid), commit its queue updates and logs, and schedule its
next resumption. -/
def stepBus (s : SimState) (e : Event) (rest : List Event) (i : ℕ) : SimState :=
  match s.buses.get? i with
  | none => { s with now := e.time, events := rest }
  | some b =>
    let o := busResume e.time b s.queues
    { s with now := e.time,
             events := List.orderedInsert evLE
               ⟨e.time + o.delay, s.nextSeq, ProcId.bus i⟩ rest,
             nextSeq := s.nextSeq + 1,
             buses := s.buses.set i o.bus,
             queues := o.queues,
             takes := pushLog s.takes o.takeLog,
             alightLog := s.alightLog ++ o.alightLog }

/-- Dispatch of a generator resumption event. -/
def stepGen (s : SimState) (e : Event) (rest : List Event) (i : ℕ) : SimState :=
  match s.gens.get? i with
  | none => { s with now := e.time, events := rest }
  | some g =>
    let o := genResume e.time g s.queues
    { s with now := e.time,
             events := List.orderedInsert evLE
               ⟨e.time + o.delay, s.nextSeq, ProcId.gen i⟩ rest,
             nextSeq := s.nextSeq + 1,
             gens := s.gens.set i o.gen,
             queues := o.queues,
             puts := pushLog s.puts o.putLog }

/-- Dispatch of a monitor resumption event (bus_sim.py lines 159-165):
record `(stop, now, queue length)` for every stop, then suspend 1 unit. -/
def stepMon (s : SimState) (e : Event) (rest : List Event) : SimState :=
  { s with now := e.time,
           events := List.orderedInsert evLE
             ⟨e.time + 1, s.nextSeq, ProcId.mon⟩ rest,
           nextSeq := s.nextSeq + 1,
           samples := s.samples ++
             s.stopsList.map (fun sn => (sn, e.time, (s.queues sn).length)) }

/-- Dispatch on the popped event's target process. -/
def stepEvent (s : SimState) (e : Event) (rest : List Event) : SimState :=
  match e.target with
  | ProcId.bus i => stepBus s e rest i
  | ProcId.gen i => stepGen s e rest i
  | ProcId.mon => stepMon s e rest

/-- One scheduler advance (simpy `Environment.step`): pop the least
`(time, seq)` event, move the clock to its trigger time, and run the
targeted process to its next suspension, scheduling its resumption. -/
def step (s : SimState) : SimState :=
  match s.events with
  | [] => s
  | e :: rest => stepEvent s e rest

/-- Generator assignment of bus_sim.py lines 179-183: for each arrival-rate
entry, the first route containing the stop provides the generator's route;
an entry whose stop is on no route is silently dropped (the `for`/`break`
loop simply never fires). -/
def generatorsFor (routes : List (String × RouteInfo)) (rates : List (String × ℚ)) :
    List (String × ℚ × List String) :=
  rates.filterMap (fun p =>
    (routes.find? (fun r => decide (p.1 ∈ r.2.stops))).map
      (fun r => (p.1, p.2, r.2.stops)))

/-- Keys of the `stops_map` dict built in bus_sim.py lines 173-176: one key
per distinct stop name, in first-insertion order. -/
def dedupKeys : List String → List String
  | [] => []
  | s :: rest => s :: (dedupKeys rest).filter (fun x => ¬ x = s)

/-- Per-run random-draw inputs: inter-arrival draws and destination-choice
draws per generator index, travel draws per bus index. -/
structure SimInputs where
  iaDraws : ℕ → ℕ → ℚ
  destDraws : ℕ → ℕ → ℕ
  travelDraws : ℕ → ℕ → ℚ

/-- A `Bus` as constructed in bus_sim.py lines 70-83 and 186-189: capacity
`BUS_CAPACITY`, empty onboard list, stop index 0, phase-offset start delay
`i * headway / num_buses`. -/
def mkBus (j : ℕ) (inp : SimInputs) (rname : String) (ri : RouteInfo) (i : ℕ) : BusState :=
  { id := rname ++ "-Bus-" ++ toString (i + 1)
    route := ri.stops
    capacity := BUS_CAPACITY
    onboard := []
    idx := 0
    active := 0
    occupied := 0
    trips := 0
    startDelay := (i : ℚ) * ri.headway / (ri.num_buses : ℚ)
    pc := BusPC.init
    draws := inp.travelDraws j
    drawIdx := 0
    blocked := false }

/-- All buses, in creation order (route order, then slot order). -/
def busList (routes : List (String × RouteInfo)) (inp : SimInputs) : List BusState :=
  ((routes.flatMap (fun r => (List.range r.2.num_buses).map (fun i => (r.1, r.2, i)))).enum.map
    (fun x => mkBus x.1 inp x.2.1 x.2.2.1 x.2.2.2))

/-- A generator process state as started in bus_sim.py lines 179-183. -/
def mkGen (j : ℕ) (inp : SimInputs) (sname : String) (rstops : List String) : GenState :=
  { stop := sname, routeStops := rstops, pid := 0,
    iaDraws := inp.iaDraws j, iaIdx := 0,
    destDraws := inp.destDraws j, destIdx := 0, started := false }

/-- All generator processes, in arrival-rate-table order. -/
def genList (routes : List (String × RouteInfo)) (rates : List (String × ℚ))
    (inp : SimInputs) : List GenState :=
  (generatorsFor routes rates).enum.map (fun x => mkGen x.1 inp x.2.1 x.2.2.2)

/-- Initial process-activation events: `env.process` is called for the
generators first (lines 179-183), then for the buses (lines 186-189), then
for the monitor (line 192), all at time 0 with creation-order sequence
numbers. -/
def initEvents (g b : ℕ) : List Event :=
  ((List.range g).map (fun i => ⟨0, i, ProcId.gen i⟩)) ++
  ((List.range b).map (fun i => ⟨0, g + i, ProcId.bus i⟩)) ++
  [⟨0, g + b, ProcId.mon⟩]

/-- The state built by `run_simulation` (bus_sim.py lines 170-192) just
before `env.run`: empty queues, all processes created and scheduled. -/
def initState (routes : List (String × RouteInfo)) (rates : List (String × ℚ))
    (inp : SimInputs) : SimState :=
  let gl := genList routes rates inp
  let bl := busList routes inp
  { now := 0
    nextSeq := gl.length + bl.length + 1
    events := initEvents gl.length bl.length
    buses := bl
    gens := gl
    queues := fun _ => []
    takes := fun _ => []
    puts := fun _ => []
    alightLog := []
    samples := []
    stopsList := dedupKeys (routes.flatMap (fun r => r.2.stops)) }

/-- The simulation after `n` scheduler advances.  `env.run(until=SIM_TIME)`
executes a finite prefix of this step sequence (it stops once the clock
reaches the horizon), so any property proved for every `n` holds at every
instant of the real bounded run. -/
def run (routes : List (String × RouteInfo)) (rates : List (String × ℚ))
    (inp : SimInputs) (n : ℕ) : SimState :=
  step^[n] (initState routes rates inp)

/-- The boarding loop of bus_sim.py lines 101-118 run to completion with no
interleaved process (the cooperative model resumes the bus immediately at
`now + BOARDING_TIME` when no other event intervenes, and the queue is
static): returns the final onboard list, the remaining queue, the finishing
time and the `boarded` counter. -/
def boardRunAux : ℕ → ℚ → List Passenger → List Passenger →
    List Passenger × List Passenger × ℚ × ℕ
  | _, now, ob, [] => (ob, [], now, 0)
  | 0, now, ob, q => (ob, q, now, 0)
  | free + 1, now, ob, p :: rest =>
      let r := boardRunAux free (now + BOARDING_TIME)
        (ob ++ [{ p with board_time := some now }]) rest
      (r.1, r.2.1, r.2.2.1, r.2.2.2 + 1)

/-- Board-time stamps of a burst starting at `t`: the `j`-th passenger
(0-indexed) is stamped `t + j * BOARDING_TIME`. -/
def stamp (t : ℚ) : List Passenger → List Passenger
  | [] => []
  | p :: l => { p with board_time := some t } :: stamp (t + BOARDING_TIME) l

/-- Result of one full stop visit of `Bus.run` (lines 88-122) with no
interleaved process. -/
structure VisitOut where
  onboard : List Passenger
  queue : List Passenger
  alighted : List Passenger
  boardedCount : ℕ
  dwellTaken : Bool
  endTime : ℚ
deriving Repr

/-- One full stop visit of `Bus.run` (bus_sim.py lines 88-122) with no
interleaved process and a static queue: ALIGHT, the alighting delay, BOARD
(via `boardRunAux`), then the conditional minimum dwell of lines 121-122,
whose condition `boarded == 0 and len(alighting) == 0` is taken verbatim
from the code. -/
def visitRun (now : ℚ) (cap : ℕ) (onboard : List Passenger) (stopName : String)
    (q : List Passenger) : VisitOut :=
  let alighting := onboard.filter (fun p => p.destination = stopName)
  let staying := onboard.filter (fun p => ¬ p.destination = stopName)
  let aDone := alighting.map (fun p => { p with alight_time := some now })
  let t1 := if 0 < alighting.length then now + (alighting.length : ℚ) * ALIGHTING_TIME else now
  let free := cap - staying.length
  let r := boardRunAux free t1 staying q
  { onboard := r.1
    queue := r.2.1
    alighted := aDone
    boardedCount := r.2.2.2
    dwellTaken := decide (r.2.2.2 = 0 ∧ alighting.length = 0)
    endTime := if r.2.2.2 = 0 ∧ alighting.length = 0 then r.2.2.1 + MIN_DWELL else r.2.2.1 }

/-! Concrete configurations used for counterexamples and witnesses. -/

/-- A one-route, one-stop, zero-bus configuration (only the monitor runs). -/
def cexRoutes : List (String × RouteInfo) := [("A", ⟨["A1"], 15, 0, 6, 1⟩)]

/-- An arrival-rate table whose stop `Z9` is on no route. -/
def cexBadRates : List (String × ℚ) := [("Z9", 2 / 5)]

/-- All-zero draw streams. -/
def cexInputs : SimInputs := ⟨fun _ _ => 0, fun _ _ => 0, fun _ _ => 0⟩

/-- A two-stop route with one bus starting at offset 0. -/
def wRoutes : List (String × RouteInfo) := [("A", ⟨["A1", "A2"], 0, 1, 0, 0⟩)]

/-- One generator at stop A1. -/
def wRates : List (String × ℚ) := [("A1", 1)]

/-- Unit inter-arrival draws, zero destination and travel draws. -/
def wInputs : SimInputs := ⟨fun _ _ => 1, fun _ _ => 0, fun _ _ => 0⟩

/-- Fallback bus for `List.getD` (never selected in the witnesses). -/
def busFallback : BusState := mkBus 0 wInputs "A" ⟨["A1"], 0, 0, 0, 0⟩ 0

/-- Fallback passenger for `List.getD` (never selected in the witnesses). -/
def passFallback : Passenger := ⟨"", 0, "", "", none, none⟩

/-- The first bus of the witness run after `n` scheduler advances. -/
def wBus (n : ℕ) : BusState := ((run wRoutes wRates wInputs n).buses).getD 0 busFallback

/-- The first onboard passenger of the witness run after 10 advances. -/
def wPass : Passenger := (wBus 10).onboard.getD 0 passFallback

/-! Invariant predicates used by the claim proofs. -/

/-- Structural bus invariant: the onboard count is bounded by the capacity
(which is `BUS_CAPACITY`), the blocking branch of `get` was never taken,
and — while suspended inside the boarding loop — the saved free-space
counter plus the onboard count is still bounded by the capacity. -/
def CapOk (b : BusState) : Prop :=
  b.onboard.length ≤ b.capacity ∧ b.capacity = BUS_CAPACITY ∧ b.blocked = false ∧
  ∀ f bd a, b.pc = BusPC.boarding f bd a → f + b.onboard.length ≤ b.capacity

/-- Queue-accounting invariant: for every stop, the put log equals the take
log followed by the current queue — takes are exactly the oldest puts, in
insertion order. -/
def FifoOk (s : SimState) : Prop :=
  ∀ sn, s.puts sn = s.takes sn ++ s.queues sn

/-- Monitor invariant: exactly one monitor event is pending, scheduled at
integer time `k` (the number of monitor firings so far), and every stop's
recorded sample times are exactly `0, 1, ..., k-1`. -/
def MonOk (s : SimState) : Prop :=
  s.stopsList.Nodup ∧
  ∃ k : ℕ,
    ((s.events.filter (fun e => decide (e.target = ProcId.mon))).map
      (fun e => e.time)) = [(k : ℚ)] ∧
    ∀ sn, ((s.samples.filter (fun r => decide (r.1 = sn))).map (fun r => r.2.1)) =
      (if sn ∈ s.stopsList then (List.range k).map (fun i => (i : ℚ)) else [])

/-- A passenger waiting in a stop queue: arrived no later than now, not yet
boarded, not yet alighted. -/
def POk (now : ℚ) (p : Passenger) : Prop :=
  p.arrival_time ≤ now ∧ p.board_time = none ∧ p.alight_time = none

/-- An onboard passenger: boarded at some time between its arrival and now,
not yet alighted. -/
def BOk (now : ℚ) (p : Passenger) : Prop :=
  ∃ tb, p.board_time = some tb ∧ p.arrival_time ≤ tb ∧ tb ≤ now ∧
    p.alight_time = none

/-- An alighted passenger: `arrival_time ≤ board_time ≤ alight_time ≤ now`. -/
def AOk (now : ℚ) (p : Passenger) : Prop :=
  ∃ tb ta, p.board_time = some tb ∧ p.alight_time = some ta ∧
    p.arrival_time ≤ tb ∧ tb ≤ ta ∧ ta ≤ now

/-- Timing contract of one bus segment run at time `now`: non-negative
delay, well-stamped onboard passengers and queues, unchanged start delay,
and fully-stamped alighted passengers. -/
def SegTimeOk (now : ℚ) (bs : BusState) (o : SegOut) : Prop :=
  0 ≤ o.delay ∧ (∀ p ∈ o.bus.onboard, BOk now p) ∧
  o.bus.startDelay = bs.startDelay ∧
  (∀ sn, ∀ p ∈ o.queues sn, POk now p) ∧
  (∀ p ∈ o.alightLog, AOk now p)

/-- Timing invariant: pending events are sorted by `(time, seq)` and lie in
the future; queued passengers satisfy `POk`, onboard passengers `BOk`,
alighted passengers `AOk`; start delays and all pending inter-arrival draws
are non-negative. -/
def TimeOk (s : SimState) : Prop :=
  List.Sorted evLE s.events ∧
  (∀ e ∈ s.events, s.now ≤ e.time) ∧
  (∀ sn, ∀ p ∈ s.queues sn, POk s.now p) ∧
  (∀ b ∈ s.buses, (∀ p ∈ b.onboard, BOk s.now p) ∧ 0 ≤ b.startDelay) ∧
  (∀ g ∈ s.gens, ∀ j, 0 ≤ g.iaDraws j) ∧
  (∀ p ∈ s.alightLog, AOk s.now p)

/-! Utility lemmas. -/

theorem step_nil (s : SimState) (hev : s.events = []) : step s = s := by
  unfold step; rw [hev]

theorem step_cons (s : SimState) (e : Event) (rest : List Event)
    (hev : s.events = e :: rest) : step s = stepEvent s e rest := by
  unfold step; rw [hev]

theorem stepEvent_bus (s : SimState) (e : Event) (rest : List Event) (i : ℕ)
    (ht : e.target = ProcId.bus i) : stepEvent s e rest = stepBus s e rest i := by
  unfold stepEvent; rw [ht]

theorem stepEvent_gen (s : SimState) (e : Event) (rest : List Event) (i : ℕ)
    (ht : e.target = ProcId.gen i) : stepEvent s e rest = stepGen s e rest i := by
  unfold stepEvent; rw [ht]

theorem stepEvent_mon (s : SimState) (e : Event) (rest : List Event)
    (ht : e.target = ProcId.mon) : stepEvent s e rest = stepMon s e rest := by
  unfold stepEvent; rw [ht]

theorem stepBus_none (s : SimState) (e : Event) (rest : List Event) (i : ℕ)
    (hb : s.buses.get? i = none) :
    stepBus s e rest i = { s with now := e.time, events := rest } := by
  unfold stepBus; rw [hb]

theorem stepBus_some (s : SimState) (e : Event) (rest : List Event) (i : ℕ)
    (b : BusState) (hb : s.buses.get? i = some b) :
    stepBus s e rest i =
      { s with now := e.time,
               events := List.orderedInsert evLE
                 ⟨e.time + (busResume e.time b s.queues).delay, s.nextSeq, ProcId.bus i⟩ rest,
               nextSeq := s.nextSeq + 1,
               buses := s.buses.set i (busResume e.time b s.queues).bus,
               queues := (busResume e.time b s.queues).queues,
               takes := pushLog s.takes (busResume e.time b s.queues).takeLog,
               alightLog := s.alightLog ++ (busResume e.time b s.queues).alightLog } := by
  unfold stepBus; rw [hb]

theorem stepGen_none (s : SimState) (e : Event) (rest : List Event) (i : ℕ)
    (hg : s.gens.get? i = none) :
    stepGen s e rest i = { s with now := e.time, events := rest } := by
  unfold stepGen; rw [hg]

theorem stepGen_some (s : SimState) (e : Event) (rest : List Event) (i : ℕ)
    (g : GenState) (hg : s.gens.get? i = some g) :
    stepGen s e rest i =
      { s with now := e.time,
               events := List.orderedInsert evLE
                 ⟨e.time + (genResume e.time g s.queues).delay, s.nextSeq, ProcId.gen i⟩ rest,
               nextSeq := s.nextSeq + 1,
               gens := s.gens.set i (genResume e.time g s.queues).gen,
               queues := (genResume e.time g s.queues).queues,
               puts := pushLog s.puts (genResume e.time g s.queues).putLog } := by
  unfold stepGen; rw [hg]

theorem evLE_time {a b : Event} (h : evLE a b) : a.time ≤ b.time := by
  rcases h with h | ⟨h, _⟩
  · exact le_of_lt h
  · exact le_of_eq h

theorem getD_zero_mem {α : Type} (l : List α) (d : α) (h : 0 < l.length) :
    l.getD 0 d ∈ l := by
  cases l with
  | nil => simp at h
  | cons a t => simp

theorem getD_mem_of_lt {α : Type} :
    ∀ (l : List α) (n : ℕ) (d : α), n < l.length → l.getD n d ∈ l
  | a :: t, 0, d, _ => by simp
  | a :: t, n + 1, d, h => by
      simpa using Or.inr (getD_mem_of_lt t n d (by simpa using h))
  | [], n, d, h => by simp at h

theorem getD_eq_get {α : Type} :
    ∀ (l : List α) (n : ℕ) (d : α) (h : n < l.length), l.getD n d = l.get ⟨n, h⟩
  | a :: t, 0, d, _ => by simp
  | a :: t, n + 1, d, h => by
      simpa using getD_eq_get t n d (by simpa using h)
  | [], n, d, h => by simp at h

/-! Claim C5: travel-time floor. -/

/-- C5: for every travel leg, the travel duration used is
`max(0.5, draw)`, hence at least `0.5` time units for every possible draw
from the normal distribution, including negative draws
(bus_sim.py line 125). -/
theorem travel_duration_floored (d : ℚ) :
    travelTime d = max (1 / 2) d ∧ (1 / 2 : ℚ) ≤ travelTime d :=
  ⟨rfl, le_max_left _ _⟩

/-! Claim C9: configuration validation. -/

/-- C9 counterexample: with an arrival-rate table whose stop `Z9` is on no
route, setup raises no error — the entry is silently dropped by the
`for`/`break` loop of bus_sim.py lines 180-183 (no generator is created) —
and the scheduler starts and runs normally (the monitor records a sample),
contradicting the claim that such configurations are detected at setup and
abort the run. -/
theorem config_error_not_detected :
    generatorsFor cexRoutes cexBadRates = [] ∧
    (run cexRoutes cexBadRates cexInputs 1).samples = [("A1", 0, 0)] := by
  constructor
  · rfl
  · decide

/-- C9 amended: `run_simulation` performs no configuration validation; an
arrival-rate entry referencing a stop absent from every route is silently
ignored (filtering such entries out of the rate table leaves the generator
assignment unchanged), and the simulation starts regardless. -/
theorem config_unknown_rate_stops_skipped (routes : List (String × RouteInfo))
    (rates : List (String × ℚ)) :
    generatorsFor routes rates =
      generatorsFor routes
        (rates.filter (fun p => routes.any (fun r => decide (p.1 ∈ r.2.stops)))) := by
  induction rates with
  | nil => rfl
  | cons p rest ih =>
    unfold generatorsFor
    simp only [List.filterMap_cons, List.filter_cons]
    cases hf : routes.find? (fun r => decide (p.1 ∈ r.2.stops)) with
    | none =>
      have hany : routes.any (fun r => decide (p.1 ∈ r.2.stops)) = false := by
        rw [← Bool.not_eq_true, List.any_eq_true]
        rintro ⟨r, hr, hpr⟩
        exact List.find?_eq_none.mp hf r hr hpr
      simpa [hany] using ih
    | some r0 =>
      have hany : routes.any (fun r => decide (p.1 ∈ r.2.stops)) = true :=
        List.any_eq_true.mpr ⟨r0, List.mem_of_find?_eq_some hf,
          @List.find?_some _ (fun r => decide (p.1 ∈ r.2.stops)) r0 routes hf⟩
      unfold generatorsFor at ih
      simp [hany, hf, ih]

/-! Claim C7: passenger origin and destination selection. -/

/-- C7: a passenger generated at a stop is created with origin equal to the
generating stop and arrival time equal to the current virtual time; its
destination is chosen among exactly the stops strictly downstream of the
stop's (first) index on the route — every choice index lands in that set
and every member of that set is reachable — and when no downstream stop
exists the destination equals the origin (bus_sim.py lines 145-154). -/
theorem generator_destination_downstream :
    (∀ (rstops : List String) (sname : String) (k : ℕ),
      (rstops.indexOf sname + 1 < rstops.length →
        chooseDest rstops sname k ∈ rstops.drop (rstops.indexOf sname + 1) ∧
        ∀ d ∈ rstops.drop (rstops.indexOf sname + 1), ∃ k2, chooseDest rstops sname k2 = d) ∧
      (¬ rstops.indexOf sname + 1 < rstops.length → chooseDest rstops sname k = sname)) ∧
    (∀ (now : ℚ) (g : GenState) (qs : String → List Passenger), g.started = true →
      ∃ p, (genResume now g qs).putLog = some (g.stop, p) ∧
        p.origin = g.stop ∧ p.arrival_time = now ∧
        p.destination = chooseDest g.routeStops g.stop (g.destDraws g.destIdx)) := by
  constructor
  · intro rstops sname k
    constructor
    · intro h
      have hlen : (rstops.drop (rstops.indexOf sname + 1)).length =
          rstops.length - (rstops.indexOf sname + 1) := List.length_drop _ _
      have hpos : 0 < rstops.length - (rstops.indexOf sname + 1) := by omega
      constructor
      · unfold chooseDest
        rw [if_pos h]
        exact getD_mem_of_lt _ _ _ (by rw [hlen]; exact Nat.mod_lt _ hpos)
      · intro d hd
        obtain ⟨j, hj⟩ := List.mem_iff_get.mp hd
        refine ⟨j.1, ?_⟩
        unfold chooseDest
        rw [if_pos h]
        have hjlt : j.1 % (rstops.length - (rstops.indexOf sname + 1)) = j.1 :=
          Nat.mod_eq_of_lt (by have := j.2; omega)
        rw [hjlt, getD_eq_get _ _ _ j.2]
        exact hj
    · intro h
      unfold chooseDest
      rw [if_neg h]
  · intro now g qs hg
    simp only [genResume, hg, if_true]
    exact ⟨_, rfl, rfl, rfl, rfl⟩

/-- C7 witness: at the concrete route `["A1", "A2", "A3"]` and stop `A1`,
the hypothesis of the downstream case holds and the chosen destination is a
strictly-downstream stop. -/
theorem generator_destination_downstream_witness :
    (["A1", "A2", "A3"] : List String).indexOf "A1" + 1 <
        (["A1", "A2", "A3"] : List String).length ∧
    chooseDest ["A1", "A2", "A3"] "A1" 0 ∈
      (["A1", "A2", "A3"] : List String).drop
        ((["A1", "A2", "A3"] : List String).indexOf "A1" + 1) :=
  ⟨by decide,
    ((generator_destination_downstream.1 ["A1", "A2", "A3"] "A1" 0).1 (by decide)).1⟩

/-! The boarding loop run to completion: burst stamps. -/

theorem boardRunAux_eq :
    ∀ (q : List Passenger) (free : ℕ) (t : ℚ) (ob : List Passenger),
    boardRunAux free t ob q =
      (ob ++ stamp t (q.take (min free q.length)),
       q.drop (min free q.length),
       t + ((min free q.length : ℕ) : ℚ) * BOARDING_TIME,
       min free q.length)
  | [], free, t, ob => by
      simp [boardRunAux, stamp]
  | p :: rest, 0, t, ob => by
      simp [boardRunAux, stamp]
  | p :: rest, free + 1, t, ob => by
      have ih := boardRunAux_eq rest free (t + BOARDING_TIME)
        (ob ++ [{ p with board_time := some t }])
      have hmin : min (free + 1) (rest.length + 1) = (min free rest.length) + 1 :=
        Nat.succ_min_succ free rest.length
      simp only [boardRunAux, ih, List.length_cons, hmin, List.take_succ_cons,
        List.drop_succ_cons, stamp, List.append_assoc, List.singleton_append,
        Prod.mk.injEq]
      refine ⟨trivial, trivial, ?_, trivial⟩
      push_cast
      ring

theorem stamp_length : ∀ (l : List Passenger) (t : ℚ), (stamp t l).length = l.length
  | [], _ => rfl
  | p :: l, t => by simp [stamp, stamp_length l]

theorem stamp_getElem? :
    ∀ (l : List Passenger) (t : ℚ) (j : ℕ),
    (stamp t l)[j]? =
      l[j]?.map (fun p => { p with board_time := some (t + (j : ℚ) * BOARDING_TIME) })
  | [], t, j => by simp [stamp]
  | p :: l, t, 0 => by simp [stamp]
  | p :: l, t, j + 1 => by
      have ih := stamp_getElem? l (t + BOARDING_TIME) j
      simp only [stamp, List.getElem?_cons_succ, ih]
      cases l[j]? with
      | none => rfl
      | some p2 =>
        simp only [Option.map_some']
        have : t + BOARDING_TIME + (j : ℚ) * BOARDING_TIME =
            t + ((j : ℕ) + 1 : ℚ) * BOARDING_TIME := by ring
        congr 1
        rw [this]
        push_cast
        ring_nf

/-! Claim C6: one boarding suspension per passenger. -/

/-- C6: in the BOARD loop the bus suspends `BOARDING_TIME` per passenger,
one at a time: if a boarding burst starts at virtual time `t`, the `j`-th
passenger boarded (0-indexed) is stamped `board_time = t + j * BOARDING_TIME`
(bus_sim.py lines 101-118, run with no interleaved process). -/
theorem boarding_one_at_a_time (free : ℕ) (t : ℚ) (ob q : List Passenger) (j : ℕ)
    (h : j < min free q.length) :
    ((boardRunAux free t ob q).1)[ob.length + j]? =
      q[j]?.map (fun p => { p with board_time := some (t + (j : ℚ) * BOARDING_TIME) }) := by
  rw [boardRunAux_eq]
  show (ob ++ stamp t (q.take (min free q.length)))[ob.length + j]? = _
  rw [List.getElem?_append_right (by omega)]
  simp only [Nat.add_sub_cancel_left]
  rw [stamp_getElem?]
  congr 1
  exact List.getElem?_take_of_lt h

/-- C6 witness: a burst of two boardings starting at time 5 stamps the
second passenger (index 1) with `5 + 1 * BOARDING_TIME`. -/
theorem boarding_one_at_a_time_witness :
    (1 < min 2 ([(⟨"P1", 0, "S", "T", none, none⟩ : Passenger),
      ⟨"P2", 0, "S", "T", none, none⟩, ⟨"P3", 0, "S", "T", none, none⟩] :
        List Passenger).length) ∧
    ((boardRunAux 2 5 []
        [⟨"P1", 0, "S", "T", none, none⟩, ⟨"P2", 0, "S", "T", none, none⟩,
         ⟨"P3", 0, "S", "T", none, none⟩]).1)[([] : List Passenger).length + 1]? =
      ([(⟨"P1", 0, "S", "T", none, none⟩ : Passenger),
        ⟨"P2", 0, "S", "T", none, none⟩, ⟨"P3", 0, "S", "T", none, none⟩] :
          List Passenger)[1]?.map
        (fun p => { p with board_time := some (5 + (1 : ℚ) * BOARDING_TIME) }) :=
  ⟨by decide,
    boarding_one_at_a_time 2 5 []
      [⟨"P1", 0, "S", "T", none, none⟩, ⟨"P2", 0, "S", "T", none, none⟩,
       ⟨"P3", 0, "S", "T", none, none⟩] 1 (by decide)⟩

/-! Claim C4: minimum-dwell condition. -/

/-- C4: during a stop visit the minimum-dwell suspension is taken if and
only if no passenger boarded (the stop queue is left exactly as found) and
no passenger alighted during that visit; with any boarding or alighting, no
minimum-dwell delay occurs (bus_sim.py lines 121-122; first conjunct: a
full visit with no interleaved process; second conjunct: at the dwell
decision point itself, in any context, the dwell suspension is entered iff
both per-visit counters are zero). -/
theorem dwell_iff_no_service (now : ℚ) (cap : ℕ) (ob : List Passenger) (sn : String)
    (q : List Passenger) :
    ((visitRun now cap ob sn q).dwellTaken = true ↔
      ((visitRun now cap ob sn q).queue = q ∧ (visitRun now cap ob sn q).alighted = [])) ∧
    (∀ (bd al : ℕ) (bs : BusState) (qs : String → List Passenger),
      (busAfterBoard bd al bs qs).bus.pc = BusPC.postDwell ↔ (bd = 0 ∧ al = 0)) := by
  constructor
  case right =>
    intro bd al bs qs
    unfold busAfterBoard
    split_ifs with h
    · simpa using h
    · simp only [busTravelStart, busTravelIter]
      constructor
      · intro hc
        simp at hc
      · intro hc
        exact absurd hc h
  simp only [visitRun, boardRunAux_eq, decide_eq_true_eq, List.map_eq_nil_iff,
    decide_not]
  constructor
  · rintro ⟨hm, ha⟩
    exact ⟨by simp [hm], List.length_eq_zero.mp ha⟩
  · rintro ⟨hq, ha⟩
    have hlen := congrArg List.length hq
    rw [List.length_drop] at hlen
    have hm : (cap - (List.filter (fun p => !decide (p.destination = sn)) ob).length) ⊓
        q.length ≤ q.length := Nat.min_le_right _ _
    exact ⟨by omega, by simpa using ha⟩

/-! Claims C1 and C10: the capacity bound and the unreachable blocking
branch, as a structural invariant preserved by every scheduler step. -/

theorem capOk_travelIter (t : ℚ) (bs : BusState) (qs : String → List Passenger)
    (h1 : bs.onboard.length ≤ bs.capacity) (h2 : bs.capacity = BUS_CAPACITY)
    (h3 : bs.blocked = false) : CapOk (busTravelIter t bs qs).bus := by
  refine ⟨h1, h2, h3, ?_⟩
  intro f bd a hpc
  simp [busTravelIter] at hpc

theorem capOk_travelStart (bs : BusState) (qs : String → List Passenger)
    (h1 : bs.onboard.length ≤ bs.capacity) (h2 : bs.capacity = BUS_CAPACITY)
    (h3 : bs.blocked = false) : CapOk (busTravelStart bs qs).bus :=
  capOk_travelIter _ _ qs h1 h2 h3

theorem capOk_afterBoard (bd a : ℕ) (bs : BusState) (qs : String → List Passenger)
    (h1 : bs.onboard.length ≤ bs.capacity) (h2 : bs.capacity = BUS_CAPACITY)
    (h3 : bs.blocked = false) : CapOk (busAfterBoard bd a bs qs).bus := by
  unfold busAfterBoard
  split_ifs with h
  · exact ⟨h1, h2, h3, by intro f bd2 a2 hpc; simp at hpc⟩
  · exact capOk_travelStart bs qs h1 h2 h3

theorem capOk_boardLoop (now : ℚ) (free bd a : ℕ) (bs : BusState)
    (qs : String → List Passenger)
    (hfree : free + bs.onboard.length ≤ bs.capacity)
    (h2 : bs.capacity = BUS_CAPACITY) (h3 : bs.blocked = false) :
    CapOk (busBoardLoop now free bd a bs qs).bus := by
  have h1 : bs.onboard.length ≤ bs.capacity := by omega
  simp only [busBoardLoop]
  cases hq : qs (bs.route.getD bs.idx "") with
  | nil =>
    rw [if_neg (by simp)]
    exact capOk_afterBoard bd a bs qs h1 h2 h3
  | cons p rest =>
    by_cases hf0 : 0 < free
    · rw [if_pos ⟨hf0, by simp⟩]
      simp only [getPassenger]
      refine ⟨?_, h2, h3, ?_⟩
      · simp only [List.length_append, List.length_singleton]
        omega
      · intro f b2 a2 hpc
        simp only [BusPC.boarding.injEq] at hpc
        obtain ⟨hfm, _, _⟩ := hpc
        simp only [List.length_append, List.length_singleton]
        omega
    · rw [if_neg (fun hc => hf0 hc.1)]
      exact capOk_afterBoard bd a bs qs h1 h2 h3

theorem capOk_boardEntry (now : ℚ) (a : ℕ) (bs : BusState)
    (qs : String → List Passenger)
    (h1 : bs.onboard.length ≤ bs.capacity) (h2 : bs.capacity = BUS_CAPACITY)
    (h3 : bs.blocked = false) : CapOk (busBoardEntry now a bs qs).bus :=
  capOk_boardLoop now _ 0 a bs qs (by omega) h2 h3

theorem capOk_visit (now : ℚ) (bs : BusState) (qs : String → List Passenger)
    (h1 : bs.onboard.length ≤ bs.capacity) (h2 : bs.capacity = BUS_CAPACITY)
    (h3 : bs.blocked = false) : CapOk (busVisit now bs qs).bus := by
  simp only [busVisit]
  split_ifs with h
  · exact ⟨le_trans (List.length_filter_le _ _) h1, h2, h3,
      by intro f bd a hpc; simp at hpc⟩
  · exact capOk_boardEntry now 0 _ qs (le_trans (List.length_filter_le _ _) h1) h2 h3

theorem capOk_finishTravel (now : ℚ) (bs : BusState) (qs : String → List Passenger)
    (h1 : bs.onboard.length ≤ bs.capacity) (h2 : bs.capacity = BUS_CAPACITY)
    (h3 : bs.blocked = false) : CapOk (busFinishTravel now bs qs).bus := by
  simp only [busFinishTravel]
  exact capOk_visit now _ qs h1 h2 h3

theorem capOk_resume (now : ℚ) (bs : BusState) (qs : String → List Passenger)
    (h : CapOk bs) : CapOk (busResume now bs qs).bus := by
  obtain ⟨h1, h2, h3, h4⟩ := h
  cases hpc : bs.pc with
  | init =>
    simp only [busResume, hpc]
    exact ⟨h1, h2, h3, by intro f bd a hc; simp at hc⟩
  | visiting =>
    simp only [busResume, hpc]
    exact capOk_visit now bs qs h1 h2 h3
  | boardEntry a =>
    simp only [busResume, hpc]
    exact capOk_boardEntry now a bs qs h1 h2 h3
  | boarding f b a =>
    simp only [busResume, hpc]
    exact capOk_boardLoop now f b a bs qs (h4 f b a hpc) h2 h3
  | postDwell =>
    simp only [busResume, hpc]
    exact capOk_travelStart bs qs h1 h2 h3
  | traveling t =>
    simp only [busResume, hpc]
    split_ifs with ht
    · exact capOk_travelIter t bs qs h1 h2 h3
    · exact capOk_finishTravel now bs qs h1 h2 h3

theorem capOk_step (s : SimState) (h : ∀ b ∈ s.buses, CapOk b) :
    ∀ b ∈ (step s).buses, CapOk b := by
  cases hev : s.events with
  | nil => rw [step_nil s hev]; exact h
  | cons e rest =>
    rw [step_cons s e rest hev]
    cases ht : e.target with
    | bus i =>
      rw [stepEvent_bus s e rest i ht]
      cases hbg : s.buses.get? i with
      | none => rw [stepBus_none s e rest i hbg]; exact h
      | some b =>
        rw [stepBus_some s e rest i b hbg]
        intro b2 hb2
        rcases List.mem_or_eq_of_mem_set hb2 with hmem | heq
        · exact h b2 hmem
        · exact heq ▸ capOk_resume e.time b s.queues (h b (List.get?_mem hbg))
    | gen i =>
      rw [stepEvent_gen s e rest i ht]
      cases hgg : s.gens.get? i with
      | none => rw [stepGen_none s e rest i hgg]; exact h
      | some g => rw [stepGen_some s e rest i g hgg]; exact h
    | mon => rw [stepEvent_mon s e rest ht]; exact h

theorem capOk_init (routes : List (String × RouteInfo)) (rates : List (String × ℚ))
    (inp : SimInputs) : ∀ b ∈ (initState routes rates inp).buses, CapOk b := by
  intro b hb
  simp only [initState, busList, List.mem_map] at hb
  obtain ⟨x, _, rfl⟩ := hb
  exact ⟨by simp [mkBus], rfl, rfl, by intro f bd a hc; simp [mkBus] at hc⟩

theorem capOk_run (routes : List (String × RouteInfo)) (rates : List (String × ℚ))
    (inp : SimInputs) (n : ℕ) : ∀ b ∈ (run routes rates inp n).buses, CapOk b := by
  induction n with
  | zero => exact capOk_init routes rates inp
  | succ n ih =>
    have hstep : run routes rates inp (n + 1) = step (run routes rates inp n) := by
      unfold run
      exact Function.iterate_succ_apply' step n _
    rw [hstep]
    exact capOk_step _ ih

/-- C1: at every step of every run, every bus's onboard passenger count is
at most its capacity, and that capacity is `BUS_CAPACITY`: the boarding
loop's free-space check makes boarding past capacity unreachable
(bus_sim.py lines 99-118). -/
theorem onboard_count_bounded (routes : List (String × RouteInfo))
    (rates : List (String × ℚ)) (inp : SimInputs) (n : ℕ) :
    ∀ b ∈ (run routes rates inp n).buses,
      b.onboard.length ≤ b.capacity ∧ b.capacity = BUS_CAPACITY := by
  intro b hb
  obtain ⟨h1, h2, _⟩ := capOk_run routes rates inp n b hb
  exact ⟨h1, h2⟩

/-- C1 witness: the capacity bound instantiated on a concrete
one-bus run after 4 scheduler steps. -/
theorem onboard_count_bounded_witness :
    (wBus 4).onboard.length ≤ (wBus 4).capacity ∧ (wBus 4).capacity = BUS_CAPACITY :=
  onboard_count_bounded wRoutes wRates wInputs 4 (wBus 4)
    (getD_zero_mem _ _ (by with_unfolding_all decide))

/-- C10: the blocking branch of the stop's `get` is unreachable from
`Bus.run`: `get` blocks exactly on an empty queue (first conjunct), and in
every reachable state of every run no bus has ever hit that branch — the
boarding-loop guard checks queue non-emptiness with no suspension point
before the `get` (bus_sim.py lines 101-102, 66-67). -/
theorem store_get_never_blocks (routes : List (String × RouteInfo))
    (rates : List (String × ℚ)) (inp : SimInputs) (n : ℕ) :
    (∀ q : List Passenger, getPassenger q = none ↔ q = []) ∧
    ∀ b ∈ (run routes rates inp n).buses, b.blocked = false := by
  constructor
  · intro q
    cases q <;> simp [getPassenger]
  · intro b hb
    exact (capOk_run routes rates inp n b hb).2.2.1

/-- C10 witness: instantiated on a concrete one-bus run after 3 steps and
on the empty queue. -/
theorem store_get_never_blocks_witness :
    (getPassenger [] = none ↔ ([] : List Passenger) = []) ∧ (wBus 3).blocked = false :=
  ⟨(store_get_never_blocks wRoutes wRates wInputs 3).1 [],
    (store_get_never_blocks wRoutes wRates wInputs 3).2 (wBus 3)
      (getD_zero_mem _ _ (by with_unfolding_all decide))⟩

/-! Claim C3: FIFO service of stop queues. -/

theorem segQ_afterBoard (bd a : ℕ) (bs : BusState) (qs : String → List Passenger) :
    (busAfterBoard bd a bs qs).takeLog = none ∧ (busAfterBoard bd a bs qs).queues = qs := by
  unfold busAfterBoard
  split_ifs with h
  · exact ⟨rfl, rfl⟩
  · exact ⟨rfl, rfl⟩

theorem segQ_boardLoop (now : ℚ) (free bd a : ℕ) (bs : BusState)
    (qs : String → List Passenger) :
    ((busBoardLoop now free bd a bs qs).takeLog = none ∧
      (busBoardLoop now free bd a bs qs).queues = qs) ∨
    (∃ sn p rest, (busBoardLoop now free bd a bs qs).takeLog = some (sn, p) ∧
      qs sn = p :: rest ∧
      (busBoardLoop now free bd a bs qs).queues = updQ qs sn rest) := by
  simp only [busBoardLoop]
  cases hq : qs (bs.route.getD bs.idx "") with
  | nil =>
    rw [if_neg (by simp)]
    exact Or.inl (segQ_afterBoard bd a bs qs)
  | cons p rest =>
    by_cases hf : 0 < free
    · rw [if_pos ⟨hf, by simp⟩]
      exact Or.inr ⟨bs.route.getD bs.idx "", p, rest, rfl, hq, rfl⟩
    · rw [if_neg (fun hc => hf hc.1)]
      exact Or.inl (segQ_afterBoard bd a bs qs)

theorem segQ_visit (now : ℚ) (bs : BusState) (qs : String → List Passenger) :
    ((busVisit now bs qs).takeLog = none ∧ (busVisit now bs qs).queues = qs) ∨
    (∃ sn p rest, (busVisit now bs qs).takeLog = some (sn, p) ∧
      qs sn = p :: rest ∧ (busVisit now bs qs).queues = updQ qs sn rest) := by
  simp only [busVisit]
  split_ifs with h
  · exact Or.inl ⟨by trivial, by trivial⟩
  · exact segQ_boardLoop now _ 0 0 _ qs

theorem busResume_queues (now : ℚ) (bs : BusState) (qs : String → List Passenger) :
    ((busResume now bs qs).takeLog = none ∧ (busResume now bs qs).queues = qs) ∨
    (∃ sn p rest, (busResume now bs qs).takeLog = some (sn, p) ∧
      qs sn = p :: rest ∧ (busResume now bs qs).queues = updQ qs sn rest) := by
  cases hpc : bs.pc with
  | init => simp only [busResume, hpc]; exact Or.inl ⟨by trivial, by trivial⟩
  | visiting => simp only [busResume, hpc]; exact segQ_visit now bs qs
  | boardEntry a => simp only [busResume, hpc]; exact segQ_boardLoop now _ 0 a bs qs
  | boarding f b a => simp only [busResume, hpc]; exact segQ_boardLoop now f b a bs qs
  | postDwell => simp only [busResume, hpc]; exact Or.inl ⟨by trivial, by trivial⟩
  | traveling t =>
    simp only [busResume, hpc]
    split_ifs with ht
    · exact Or.inl ⟨by trivial, by trivial⟩
    · simp only [busFinishTravel]
      exact segQ_visit now _ qs

theorem genResume_queues (now : ℚ) (g : GenState) (qs : String → List Passenger) :
    ((genResume now g qs).putLog = none ∧ (genResume now g qs).queues = qs) ∨
    (∃ p, (genResume now g qs).putLog = some (g.stop, p) ∧
      (genResume now g qs).queues = updQ qs g.stop (qs g.stop ++ [p])) := by
  by_cases hg : g.started = true
  · simp only [genResume, hg, if_true]
    exact Or.inr ⟨_, rfl, rfl⟩
  · simp only [genResume, hg, if_false]
    exact Or.inl ⟨rfl, rfl⟩

theorem fifoOk_step (s : SimState) (h : FifoOk s) : FifoOk (step s) := by
  cases hev : s.events with
  | nil => rw [step_nil s hev]; exact h
  | cons e rest =>
    rw [step_cons s e rest hev]
    cases ht : e.target with
    | bus i =>
      rw [stepEvent_bus s e rest i ht]
      cases hbg : s.buses.get? i with
      | none => rw [stepBus_none s e rest i hbg]; exact h
      | some b =>
        rw [stepBus_some s e rest i b hbg]
        intro sn
        rcases busResume_queues e.time b s.queues with ⟨hn, hq⟩ |
          ⟨sn0, p, rest0, hs, hqt, hq⟩
        · show s.puts sn = pushLog s.takes (busResume e.time b s.queues).takeLog sn ++
            (busResume e.time b s.queues).queues sn
          rw [hn, hq]
          exact h sn
        · show s.puts sn = pushLog s.takes (busResume e.time b s.queues).takeLog sn ++
            (busResume e.time b s.queues).queues sn
          rw [hs, hq]
          by_cases hsn : sn = sn0
          · subst hsn
            simp only [pushLog, updQ, if_pos rfl]
            rw [h sn, hqt]
            simp
          · simp only [pushLog, updQ, if_neg hsn]
            exact h sn
    | gen i =>
      rw [stepEvent_gen s e rest i ht]
      cases hgg : s.gens.get? i with
      | none => rw [stepGen_none s e rest i hgg]; exact h
      | some g =>
        rw [stepGen_some s e rest i g hgg]
        intro sn
        rcases genResume_queues e.time g s.queues with ⟨hn, hq⟩ | ⟨p, hs, hq⟩
        · show pushLog s.puts (genResume e.time g s.queues).putLog sn =
            s.takes sn ++ (genResume e.time g s.queues).queues sn
          rw [hn, hq]
          exact h sn
        · show pushLog s.puts (genResume e.time g s.queues).putLog sn =
            s.takes sn ++ (genResume e.time g s.queues).queues sn
          rw [hs, hq]
          by_cases hsn : sn = g.stop
          · subst hsn
            simp only [pushLog, updQ, if_pos rfl]
            rw [h g.stop]
            simp
          · simp only [pushLog, updQ, if_neg hsn]
            exact h sn
    | mon =>
      rw [stepEvent_mon s e rest ht]
      exact h

theorem fifoOk_run (routes : List (String × RouteInfo)) (rates : List (String × ℚ))
    (inp : SimInputs) (n : ℕ) : FifoOk (run routes rates inp n) := by
  induction n with
  | zero => intro sn; rfl
  | succ n ih =>
    have hstep : run routes rates inp (n + 1) = step (run routes rates inp n) := by
      unfold run
      exact Function.iterate_succ_apply' step n _
    rw [hstep]
    exact fifoOk_step _ ih

/-- C3: passengers leave each stop in exactly the order they were inserted:
in every reachable state, the sequence of passengers put at a stop equals
the sequence taken (in take order) followed by the passengers still queued —
so takes are an order-preserving prefix of puts and no queued passenger is
ever skipped.  Concretely (second and third conjuncts), with P1, P2, P3
queued in that order and two free seats, the boarding loop of bus_sim.py
lines 101-118 boards P1 then P2 and leaves P3 queued. -/
theorem stop_queue_fifo (routes : List (String × RouteInfo)) (rates : List (String × ℚ))
    (inp : SimInputs) (n : ℕ) :
    (∀ sn, (run routes rates inp n).puts sn =
      (run routes rates inp n).takes sn ++ (run routes rates inp n).queues sn) ∧
    (boardRunAux 2 5 []
        [⟨"P1", 0, "S", "T", none, none⟩, ⟨"P2", 0, "S", "T", none, none⟩,
         ⟨"P3", 0, "S", "T", none, none⟩]).1 =
      [⟨"P1", 0, "S", "T", some 5, none⟩,
       ⟨"P2", 0, "S", "T", some (5 + BOARDING_TIME), none⟩] ∧
    (boardRunAux 2 5 []
        [⟨"P1", 0, "S", "T", none, none⟩, ⟨"P2", 0, "S", "T", none, none⟩,
         ⟨"P3", 0, "S", "T", none, none⟩]).2.1 =
      [⟨"P3", 0, "S", "T", none, none⟩] :=
  ⟨fifoOk_run routes rates inp n, by with_unfolding_all decide, by with_unfolding_all decide⟩

/-! Claim C8: the queue sampler's cadence. -/

theorem filter_orderedInsert_neg (p : Event → Bool) (a : Event) (l : List Event)
    (h : p a = false) :
    (List.orderedInsert evLE a l).filter p = l.filter p := by
  induction l with
  | nil => simp [List.orderedInsert, h]
  | cons y ys ih =>
    unfold List.orderedInsert
    split_ifs with hr
    · simp [h]
    · simp only [List.filter_cons]
      rw [ih]

theorem filter_orderedInsert_pos (p : Event → Bool) (a : Event) (l : List Event)
    (h : p a = true) (h2 : l.filter p = []) :
    (List.orderedInsert evLE a l).filter p = [a] := by
  induction l with
  | nil => simp [List.orderedInsert, h]
  | cons y ys ih =>
    have hy : p y = false := by
      have := List.filter_eq_nil_iff.mp h2 y (List.mem_cons_self y ys)
      simpa using this
    have hys : ys.filter p = [] := by
      rw [List.filter_cons_of_neg (by simpa using hy)] at h2
      exact h2
    unfold List.orderedInsert
    split_ifs with hr
    · simp only [List.filter_cons, h, hy, if_pos, if_neg]
      simp [h, hy, hys]
    · simp only [List.filter_cons]
      simp [hy, ih hys]

theorem filter_fst_map (sn : String) (t : ℚ) (g : String → ℕ) (l : List String) :
    ((l.map (fun x => (x, t, g x))).filter (fun r => decide (r.1 = sn))) =
      (l.filter (fun x => decide (x = sn))).map (fun x => (x, t, g x)) := by
  induction l with
  | nil => rfl
  | cons y ys ih =>
    by_cases hy : y = sn <;> simp [hy, ih]

theorem nodup_filter_single (l : List String) (hl : l.Nodup) (sn : String) :
    l.filter (fun x => decide (x = sn)) = if sn ∈ l then [sn] else [] := by
  induction l with
  | nil => simp
  | cons y ys ih =>
    obtain ⟨hy, hys⟩ := List.nodup_cons.mp hl
    by_cases h : y = sn
    · subst h
      rw [List.filter_cons_of_pos (by simp), ih hys, if_neg hy,
        if_pos (List.mem_cons_self y ys)]
    · rw [List.filter_cons_of_neg (by simpa using h), ih hys]
      by_cases hm : sn ∈ ys
      · rw [if_pos hm, if_pos (List.mem_cons_of_mem y hm)]
      · rw [if_neg hm, if_neg (by
          simp only [List.mem_cons]
          rintro (rfl | hc)
          · exact h rfl
          · exact hm hc)]

theorem dedupKeys_nodup : ∀ l : List String, (dedupKeys l).Nodup
  | [] => by simp [dedupKeys]
  | s :: rest => by
    simp only [dedupKeys]
    refine List.nodup_cons.mpr ⟨?_, ?_⟩
    · intro hmem
      have := List.of_mem_filter hmem
      simp at this
    · exact (dedupKeys_nodup rest).filter _

theorem monOk_step (s : SimState) (h : MonOk s) : MonOk (step s) := by
  obtain ⟨hnd, k, hev, hsam⟩ := h
  cases hevs : s.events with
  | nil => rw [step_nil s hevs]; exact ⟨hnd, k, hev, hsam⟩
  | cons e rest =>
    rw [step_cons s e rest hevs]
    rw [hevs] at hev
    cases ht : e.target with
    | bus i =>
      have hpe : (fun x : Event => decide (x.target = ProcId.mon)) e = false := by
        simp [ht]
      rw [List.filter_cons_of_neg (by simpa using hpe)] at hev
      rw [stepEvent_bus s e rest i ht]
      cases hbg : s.buses.get? i with
      | none =>
        rw [stepBus_none s e rest i hbg]
        exact ⟨hnd, k, hev, hsam⟩
      | some b =>
        rw [stepBus_some s e rest i b hbg]
        refine ⟨hnd, k, ?_, hsam⟩
        show ((List.orderedInsert evLE _ rest).filter _).map _ = _
        rw [filter_orderedInsert_neg _ _ _ (by simp)]
        exact hev
    | gen i =>
      have hpe : (fun x : Event => decide (x.target = ProcId.mon)) e = false := by
        simp [ht]
      rw [List.filter_cons_of_neg (by simpa using hpe)] at hev
      rw [stepEvent_gen s e rest i ht]
      cases hgg : s.gens.get? i with
      | none =>
        rw [stepGen_none s e rest i hgg]
        exact ⟨hnd, k, hev, hsam⟩
      | some g =>
        rw [stepGen_some s e rest i g hgg]
        refine ⟨hnd, k, ?_, hsam⟩
        show ((List.orderedInsert evLE _ rest).filter _).map _ = _
        rw [filter_orderedInsert_neg _ _ _ (by simp)]
        exact hev
    | mon =>
      have hpe : (fun x : Event => decide (x.target = ProcId.mon)) e = true := by
        simp [ht]
      rw [List.filter_cons_of_pos (by simpa using hpe)] at hev
      simp only [List.map_cons, List.cons.injEq] at hev
      obtain ⟨het, hrest⟩ := hev
      have hrest0 : rest.filter (fun x : Event => decide (x.target = ProcId.mon)) = [] :=
        List.map_eq_nil_iff.mp hrest
      rw [stepEvent_mon s e rest ht]
      simp only [stepMon]
      refine ⟨hnd, k + 1, ?_, ?_⟩
      · rw [filter_orderedInsert_pos _ _ _ (by simp) hrest0]
        simp only [List.map_cons, List.map_nil, List.cons.injEq, and_true]
        rw [het]
        push_cast
        ring
      · intro sn
        rw [List.filter_append, List.map_append, hsam sn, filter_fst_map,
          nodup_filter_single s.stopsList hnd sn]
        by_cases hmem : sn ∈ s.stopsList
        · simp [hmem, het, List.range_succ]
        · simp [hmem]

theorem monOk_init (routes : List (String × RouteInfo)) (rates : List (String × ℚ))
    (inp : SimInputs) : MonOk (initState routes rates inp) := by
  refine ⟨dedupKeys_nodup _, 0, ?_, ?_⟩
  · show ((initEvents _ _).filter _).map _ = _
    unfold initEvents
    rw [List.filter_append, List.filter_append]
    rw [List.filter_eq_nil_iff.mpr (by
      intro x hx
      obtain ⟨i, _, rfl⟩ := List.mem_map.mp hx
      simp)]
    rw [List.filter_eq_nil_iff.mpr (by
      intro x hx
      obtain ⟨i, _, rfl⟩ := List.mem_map.mp hx
      simp)]
    simp
  · intro sn
    simp [initState]

theorem monOk_run (routes : List (String × RouteInfo)) (rates : List (String × ℚ))
    (inp : SimInputs) (n : ℕ) : MonOk (run routes rates inp n) := by
  induction n with
  | zero => exact monOk_init routes rates inp
  | succ n ih =>
    have hstep : run routes rates inp (n + 1) = step (run routes rates inp n) := by
      unfold run
      exact Function.iterate_succ_apply' step n _
    rw [hstep]
    exact monOk_step _ ih

/-- C8 counterexample: the monitor of bus_sim.py lines 159-165 records
first and then suspends — in a run whose only process is the monitor, the
first recorded sample of stop `A1` carries virtual time 0, not 1 as the
claim states. -/
theorem sampler_first_sample_at_zero :
    (run cexRoutes [] cexInputs 1).samples = [("A1", 0, 0)] ∧
    (((run cexRoutes [] cexInputs 1).samples.map (fun r => r.2.1)).head? = some 0) := by
  constructor
  · with_unfolding_all decide
  · with_unfolding_all decide

/-- C8 amended: the Queue Sampler records `(current_time, queue length)`
for every stop first and then suspends for the fixed 1-unit interval: in
every run, each stop's recorded sample times are exactly `0, 1, ..., k-1`
for some `k` — the first sample is at virtual time 0 and successive samples
of the same stop are exactly 1 time unit apart. -/
theorem sampler_cadence (routes : List (String × RouteInfo)) (rates : List (String × ℚ))
    (inp : SimInputs) (n : ℕ) (sn : String) :
    ∃ k : ℕ, (((run routes rates inp n).samples.filter
        (fun r => decide (r.1 = sn))).map (fun r => r.2.1)) =
      (List.range k).map (fun i => (i : ℚ)) := by
  obtain ⟨_, k, _, hsam⟩ := monOk_run routes rates inp n
  by_cases hmem : sn ∈ (run routes rates inp n).stopsList
  · exact ⟨k, by simpa [hmem] using hsam sn⟩
  · exact ⟨0, by simpa [hmem] using hsam sn⟩

/-! Claim C2: passenger timestamp ordering. -/

theorem POk_mono {t1 t2 : ℚ} (h : t1 ≤ t2) {p : Passenger} : POk t1 p → POk t2 p :=
  fun ⟨h1, h2, h3⟩ => ⟨h1.trans h, h2, h3⟩

theorem BOk_mono {t1 t2 : ℚ} (h : t1 ≤ t2) {p : Passenger} : BOk t1 p → BOk t2 p :=
  fun ⟨tb, h1, h2, h3, h4⟩ => ⟨tb, h1, h2, h3.trans h, h4⟩

theorem AOk_mono {t1 t2 : ℚ} (h : t1 ≤ t2) {p : Passenger} : AOk t1 p → AOk t2 p :=
  fun ⟨tb, ta, h1, h2, h3, h4, h5⟩ => ⟨tb, ta, h1, h2, h3, h4, h5.trans h⟩

theorem segT_travelIter (now t : ℚ) (bs : BusState) (qs : String → List Passenger)
    (ht : 0 ≤ t) (hob : ∀ p ∈ bs.onboard, BOk now p)
    (hqs : ∀ sn, ∀ p ∈ qs sn, POk now p) :
    SegTimeOk now bs (busTravelIter t bs qs) := by
  refine ⟨?_, hob, rfl, hqs, by simp [busTravelIter]⟩
  show (0 : ℚ) ≤ min 1 t
  exact le_min (by norm_num) ht

theorem segT_travelStart (now : ℚ) (bs : BusState) (qs : String → List Passenger)
    (hob : ∀ p ∈ bs.onboard, BOk now p) (hqs : ∀ sn, ∀ p ∈ qs sn, POk now p) :
    SegTimeOk now bs (busTravelStart bs qs) := by
  have h05 : (0 : ℚ) ≤ travelTime (bs.draws bs.drawIdx) :=
    le_trans (by norm_num) (le_max_left _ _)
  exact segT_travelIter now _ _ qs h05 hob hqs

theorem segT_afterBoard (now : ℚ) (bd a : ℕ) (bs : BusState)
    (qs : String → List Passenger)
    (hob : ∀ p ∈ bs.onboard, BOk now p) (hqs : ∀ sn, ∀ p ∈ qs sn, POk now p) :
    SegTimeOk now bs (busAfterBoard bd a bs qs) := by
  unfold busAfterBoard
  split_ifs with h
  · exact ⟨by norm_num [MIN_DWELL], hob, rfl, hqs, by simp⟩
  · exact segT_travelStart now bs qs hob hqs

theorem segT_boardLoop (now : ℚ) (free bd a : ℕ) (bs : BusState)
    (qs : String → List Passenger)
    (hob : ∀ p ∈ bs.onboard, BOk now p) (hqs : ∀ sn, ∀ p ∈ qs sn, POk now p) :
    SegTimeOk now bs (busBoardLoop now free bd a bs qs) := by
  simp only [busBoardLoop]
  cases hq : qs (bs.route.getD bs.idx "") with
  | nil =>
    rw [if_neg (by simp)]
    exact segT_afterBoard now bd a bs qs hob hqs
  | cons p rest =>
    by_cases hf : 0 < free
    · rw [if_pos ⟨hf, by simp⟩]
      simp only [getPassenger]
      obtain ⟨hparr, hpb, hpa⟩ :=
        hqs (bs.route.getD bs.idx "") p (by rw [hq]; exact List.mem_cons_self p rest)
      refine ⟨by norm_num [BOARDING_TIME], ?_, rfl, ?_, by simp⟩
      · intro p2 hp2
        rcases List.mem_append.mp hp2 with hmem | hmem
        · exact hob p2 hmem
        · have hp2e : p2 = { p with board_time := some now } := by simpa using hmem
          subst hp2e
          exact ⟨now, rfl, hparr, le_refl now, hpa⟩
      · intro sn p2 hp2
        simp only [updQ] at hp2
        by_cases hsn : sn = bs.route.getD bs.idx ""
        · rw [if_pos hsn] at hp2
          refine hqs sn p2 ?_
          rw [hsn, hq]
          exact List.mem_cons_of_mem _ hp2
        · rw [if_neg hsn] at hp2
          exact hqs sn p2 hp2
    · rw [if_neg (fun hc => hf hc.1)]
      exact segT_afterBoard now bd a bs qs hob hqs

theorem segT_visit (now : ℚ) (bs : BusState) (qs : String → List Passenger)
    (hob : ∀ p ∈ bs.onboard, BOk now p) (hqs : ∀ sn, ∀ p ∈ qs sn, POk now p) :
    SegTimeOk now bs (busVisit now bs qs) := by
  simp only [busVisit]
  split_ifs with h
  · refine ⟨?_, ?_, rfl, hqs, ?_⟩
    · exact mul_nonneg (Nat.cast_nonneg _) (by norm_num [ALIGHTING_TIME])
    · intro p hp
      exact hob p (List.mem_of_mem_filter hp)
    · intro p2 hp2
      obtain ⟨p, hpmem, rfl⟩ := List.mem_map.mp hp2
      obtain ⟨tb, hbt, harr, hnow, _⟩ := hob p (List.mem_of_mem_filter hpmem)
      exact ⟨tb, now, hbt, rfl, harr, hnow, le_refl now⟩
  · exact segT_boardLoop now _ 0 0 _ qs
      (fun p hp => hob p (List.mem_of_mem_filter hp)) hqs

theorem segT_finishTravel (now : ℚ) (bs : BusState) (qs : String → List Passenger)
    (hob : ∀ p ∈ bs.onboard, BOk now p) (hqs : ∀ sn, ∀ p ∈ qs sn, POk now p) :
    SegTimeOk now bs (busFinishTravel now bs qs) := by
  simp only [busFinishTravel]
  exact segT_visit now _ qs hob hqs

theorem busResume_time (now : ℚ) (bs : BusState) (qs : String → List Passenger)
    (hob : ∀ p ∈ bs.onboard, BOk now p) (hsd : 0 ≤ bs.startDelay)
    (hqs : ∀ sn, ∀ p ∈ qs sn, POk now p) :
    SegTimeOk now bs (busResume now bs qs) := by
  cases hpc : bs.pc with
  | init =>
    simp only [busResume, hpc]
    exact ⟨hsd, hob, rfl, hqs, by simp⟩
  | visiting =>
    simp only [busResume, hpc]
    exact segT_visit now bs qs hob hqs
  | boardEntry a =>
    simp only [busResume, hpc]
    exact segT_boardLoop now _ 0 a bs qs hob hqs
  | boarding f b a =>
    simp only [busResume, hpc]
    exact segT_boardLoop now f b a bs qs hob hqs
  | postDwell =>
    simp only [busResume, hpc]
    exact segT_travelStart now bs qs hob hqs
  | traveling t =>
    simp only [busResume, hpc]
    split_ifs with ht
    · exact segT_travelIter now t bs qs (le_of_lt ht) hob hqs
    · exact segT_finishTravel now bs qs hob hqs

theorem genResume_time (now : ℚ) (g : GenState) (qs : String → List Passenger)
    (hdr : ∀ j, 0 ≤ g.iaDraws j) (hqs : ∀ sn, ∀ p ∈ qs sn, POk now p) :
    0 ≤ (genResume now g qs).delay ∧
    (∀ sn, ∀ p ∈ (genResume now g qs).queues sn, POk now p) ∧
    (∀ j, 0 ≤ (genResume now g qs).gen.iaDraws j) := by
  by_cases hg : g.started = true
  · simp only [genResume, hg, if_true]
    refine ⟨hdr _, ?_, hdr⟩
    intro sn p hp
    simp only [updQ] at hp
    by_cases hsn : sn = g.stop
    · rw [if_pos hsn] at hp
      rcases List.mem_append.mp hp with hmem | hmem
      · exact hqs _ p hmem
      · rw [List.mem_singleton.mp hmem]
        exact ⟨le_refl now, rfl, rfl⟩
    · rw [if_neg hsn] at hp
      exact hqs sn p hp
  · simp only [genResume, hg, if_false]
    exact ⟨hdr _, hqs, hdr⟩

theorem timeOk_step (s : SimState) (h : TimeOk s) : TimeOk (step s) := by
  obtain ⟨hsort, hfut, hq, hb, hg, ha⟩ := h
  cases hevs : s.events with
  | nil => rw [step_nil s hevs]; exact ⟨hsort, hfut, hq, hb, hg, ha⟩
  | cons e rest =>
    rw [hevs] at hsort hfut
    have hnow : s.now ≤ e.time := hfut e (List.mem_cons_self e rest)
    obtain ⟨hhead, hrs⟩ := List.sorted_cons.mp hsort
    have hfut2 : ∀ x ∈ rest, e.time ≤ x.time := fun x hx => evLE_time (hhead x hx)
    have hq2 : ∀ sn, ∀ p ∈ s.queues sn, POk e.time p :=
      fun sn p hp => POk_mono hnow (hq sn p hp)
    have hb2 : ∀ b2 ∈ s.buses, (∀ p ∈ b2.onboard, BOk e.time p) ∧ 0 ≤ b2.startDelay :=
      fun b2 hm => ⟨fun p hp => BOk_mono hnow ((hb b2 hm).1 p hp), (hb b2 hm).2⟩
    have ha2 : ∀ p ∈ s.alightLog, AOk e.time p := fun p hp => AOk_mono hnow (ha p hp)
    rw [step_cons s e rest hevs]
    cases ht : e.target with
    | bus i =>
      rw [stepEvent_bus s e rest i ht]
      cases hbg : s.buses.get? i with
      | none =>
        rw [stepBus_none s e rest i hbg]
        exact ⟨hrs, hfut2, hq2, hb2, hg, ha2⟩
      | some b =>
        rw [stepBus_some s e rest i b hbg]
        have hbmem := List.get?_mem hbg
        obtain ⟨hdel, hsob, hssd, hsq, hsa⟩ :=
          busResume_time e.time b s.queues ((hb2 b hbmem).1) ((hb2 b hbmem).2) hq2
        refine ⟨List.Sorted.orderedInsert _ rest hrs, ?_, hsq, ?_, hg, ?_⟩
        · intro x hx
          rcases (List.mem_orderedInsert evLE).mp hx with rfl | hxm
          · show e.time ≤ e.time + (busResume e.time b s.queues).delay
            linarith
          · exact hfut2 x hxm
        · intro b2 hm
          rcases List.mem_or_eq_of_mem_set hm with hmem | heq
          · exact hb2 b2 hmem
          · subst heq
            exact ⟨hsob, by rw [hssd]; exact (hb2 b hbmem).2⟩
        · intro p hp
          rcases List.mem_append.mp hp with hmem | hmem
          · exact ha2 p hmem
          · exact hsa p hmem
    | gen i =>
      rw [stepEvent_gen s e rest i ht]
      cases hgg : s.gens.get? i with
      | none =>
        rw [stepGen_none s e rest i hgg]
        exact ⟨hrs, hfut2, hq2, hb2, hg, ha2⟩
      | some g2 =>
        rw [stepGen_some s e rest i g2 hgg]
        have hgmem := List.get?_mem hgg
        obtain ⟨hdel, hsq, hsdr⟩ := genResume_time e.time g2 s.queues (hg g2 hgmem) hq2
        refine ⟨List.Sorted.orderedInsert _ rest hrs, ?_, hsq, hb2, ?_, ha2⟩
        · intro x hx
          rcases (List.mem_orderedInsert evLE).mp hx with rfl | hxm
          · show e.time ≤ e.time + (genResume e.time g2 s.queues).delay
            linarith
          · exact hfut2 x hxm
        · intro g3 hm
          rcases List.mem_or_eq_of_mem_set hm with hmem | heq
          · exact hg g3 hmem
          · subst heq
            exact hsdr
    | mon =>
      rw [stepEvent_mon s e rest ht]
      simp only [stepMon]
      refine ⟨List.Sorted.orderedInsert _ rest hrs, ?_, hq2, hb2, hg, ha2⟩
      intro x hx
      rcases (List.mem_orderedInsert evLE).mp hx with rfl | hxm
      · show e.time ≤ e.time + 1
        linarith
      · exact hfut2 x hxm

theorem initEvents_time (g b : ℕ) : ∀ e ∈ initEvents g b, e.time = 0 := by
  intro e he
  unfold initEvents at he
  rcases List.mem_append.mp he with h1 | h2
  · rcases List.mem_append.mp h1 with ha | hbm
    · obtain ⟨i, _, rfl⟩ := List.mem_map.mp ha; rfl
    · obtain ⟨i, _, rfl⟩ := List.mem_map.mp hbm; rfl
  · rw [List.mem_singleton.mp h2]

theorem initEvents_sorted (g b : ℕ) : List.Sorted evLE (initEvents g b) := by
  have hseq : List.Pairwise (fun x y : Event => x.seq < y.seq) (initEvents g b) := by
    unfold initEvents
    rw [List.pairwise_append, List.pairwise_append]
    refine ⟨⟨?_, ?_, ?_⟩, ?_, ?_⟩
    · rw [List.pairwise_map]
      exact (List.pairwise_lt_range g).imp (fun hij => hij)
    · rw [List.pairwise_map]
      exact (List.pairwise_lt_range b).imp (fun hij => by
        show g + _ < g + _
        omega)
    · intro x hx y hy
      obtain ⟨i, hi, rfl⟩ := List.mem_map.mp hx
      obtain ⟨i2, _, rfl⟩ := List.mem_map.mp hy
      have hilt : i < g := List.mem_range.mp hi
      show i < g + i2
      omega
    · simp
    · intro x hx y hy
      rw [List.mem_singleton.mp hy]
      rcases List.mem_append.mp hx with ha | hbm
      · obtain ⟨i, hi, rfl⟩ := List.mem_map.mp ha
        have hilt : i < g := List.mem_range.mp hi
        show i < g + b
        omega
      · obtain ⟨i, hi, rfl⟩ := List.mem_map.mp hbm
        have hilt : i < b := List.mem_range.mp hi
        show g + i < g + b
        omega
  refine hseq.imp_of_mem ?_
  intro x y hx hy hlt
  exact Or.inr ⟨(initEvents_time g b x hx).trans (initEvents_time g b y hy).symm,
    le_of_lt hlt⟩

theorem timeOk_init (routes : List (String × RouteInfo)) (rates : List (String × ℚ))
    (inp : SimInputs) (hia : ∀ i j, 0 ≤ inp.iaDraws i j)
    (hhw : ∀ r ∈ routes, 0 ≤ r.2.headway) : TimeOk (initState routes rates inp) := by
  refine ⟨initEvents_sorted _ _, ?_, ?_, ?_, ?_, ?_⟩
  · intro e he
    rw [initEvents_time _ _ e he]
    exact le_refl 0
  · intro sn p hp
    simp [initState] at hp
  · intro b hbm
    simp only [initState, busList, List.mem_map] at hbm
    obtain ⟨x, hx, rfl⟩ := hbm
    have hmem : x.2 ∈ routes.flatMap
        (fun r => (List.range r.2.num_buses).map (fun i => (r.1, r.2, i))) :=
      List.snd_mem_of_mem_enum hx
    obtain ⟨r, hr, hmem2⟩ := List.mem_flatMap.mp hmem
    obtain ⟨i, _, hre⟩ := List.mem_map.mp hmem2
    constructor
    · intro p hp
      simp [mkBus] at hp
    · show (0 : ℚ) ≤ ((x.2.2.2 : ℕ) : ℚ) * x.2.2.1.headway / (x.2.2.1.num_buses : ℚ)
      have hri : x.2.2.1 = r.2 := by rw [← hre]
      rw [hri]
      exact div_nonneg (mul_nonneg (Nat.cast_nonneg _) (hhw r hr)) (Nat.cast_nonneg _)
  · intro g hgm j
    simp only [initState, genList, List.mem_map] at hgm
    obtain ⟨x, _, rfl⟩ := hgm
    exact hia x.1 j
  · intro p hp
    simp [initState] at hp

theorem timeOk_run (routes : List (String × RouteInfo)) (rates : List (String × ℚ))
    (inp : SimInputs) (hia : ∀ i j, 0 ≤ inp.iaDraws i j)
    (hhw : ∀ r ∈ routes, 0 ≤ r.2.headway) (n : ℕ) :
    TimeOk (run routes rates inp n) := by
  induction n with
  | zero => exact timeOk_init routes rates inp hia hhw
  | succ n ih =>
    have hstep : run routes rates inp (n + 1) = step (run routes rates inp n) := by
      unfold run
      exact Function.iterate_succ_apply' step n _
    rw [hstep]
    exact timeOk_step _ ih

/-- C2: passenger timestamps are monotone in virtual time in every run
(with the physically meaningful non-negative draw and headway inputs —
`np.random.exponential` only returns non-negative values): every passenger
currently on board was boarded no earlier than it arrived, and every
alighted passenger satisfies `arrival_time ≤ board_time ≤ alight_time`
(bus_sim.py lines 49-55, 91-96, 101-103, 149-153). -/
theorem passenger_timestamps_monotone (routes : List (String × RouteInfo))
    (rates : List (String × ℚ)) (inp : SimInputs)
    (hia : ∀ i j, 0 ≤ inp.iaDraws i j) (hhw : ∀ r ∈ routes, 0 ≤ r.2.headway)
    (n : ℕ) :
    (∀ b ∈ (run routes rates inp n).buses, ∀ p ∈ b.onboard,
      ∃ tb, p.board_time = some tb ∧ p.arrival_time ≤ tb) ∧
    (∀ p ∈ (run routes rates inp n).alightLog,
      ∃ tb ta, p.board_time = some tb ∧ p.alight_time = some ta ∧
        p.arrival_time ≤ tb ∧ tb ≤ ta) := by
  obtain ⟨_, _, _, hb, _, ha⟩ := timeOk_run routes rates inp hia hhw n
  constructor
  · intro b hbm p hp
    obtain ⟨tb, h1, h2, _, _⟩ := (hb b hbm).1 p hp
    exact ⟨tb, h1, h2⟩
  · intro p hp
    obtain ⟨tb, ta, h1, h2, h3, h4, _⟩ := ha p hp
    exact ⟨tb, ta, h1, h2, h3, h4⟩

/-- C2 witness: in the concrete one-route run, after 10 scheduler steps the
first onboard passenger of the first bus has `arrival_time ≤ board_time`. -/
theorem passenger_timestamps_monotone_witness :
    ∃ tb, wPass.board_time = some tb ∧ wPass.arrival_time ≤ tb :=
  (passenger_timestamps_monotone wRoutes wRates wInputs
      (fun _ _ => by norm_num [wInputs]) (by decide) 10).1
    (wBus 10) (getD_zero_mem _ _ (by with_unfolding_all decide))
    wPass (getD_zero_mem _ _ (by with_unfolding_all decide))

end BusSim
